import Mathlib

/-!
Verification of the F3DS ROF Tool rate-of-fire analysis kernel.

The JavaScript sources are embedded shallowly over exact rational arithmetic:
JavaScript numbers become `ℚ`, arrays become `List`, and the in-place
mutations of `onPeakToggle` (src/src/main.js) become pure list
transformations.  The detector internals (`rof-detector.js`) are not part of
the available sources; the burst segmenter and cadence calculator are
modelled from the specification and marked as such in their doc comments.
-/

/- ── Manual Edit Controller (src/src/main.js, onPeakToggle, lines 160-178) ── -/

/-- Manual-edit click tolerance in seconds.  Hardcoded as the local constant
`tolerance = 0.01` in `onPeakToggle` (src/src/main.js line 162); it does not
read the configuration or the sample rate. -/
def rofTolerance : ℚ := 1/100

/-- JavaScript `Math.round`: round half away from zero toward positive
infinity, i.e. `Math.round(x) = floor(x + 0.5)`. -/
def jsRound (q : ℚ) : ℤ := ⌊q + 1/2⌋

/-- The shot-time edit of `onPeakToggle` (src/src/main.js lines 162-168):
`findIndex` of the first stored time strictly within `tolerance` of the
clicked time; if found it is removed by `splice`, otherwise the clicked time
is pushed; the array is then sorted ascending by the numeric comparator.
`findIndex`/`splice` of the first match is `List.eraseP`. -/
def toggleTimes (shotTimes : List ℚ) (clickedTime : ℚ) : List ℚ :=
  (if ∃ s ∈ shotTimes, |s - clickedTime| < rofTolerance
   then shotTimes.eraseP (fun s => decide (|s - clickedTime| < rofTolerance))
   else shotTimes ++ [clickedTime]).insertionSort (· ≤ ·)

/-- Recomputation of the peak index array from the stored shot times
(src/src/main.js line 169): `shotTimes.map(t => Math.round(t * sampleRate))`. -/
def peaksOfTimes (sampleRate : ℚ) (times : List ℚ) : List ℤ :=
  times.map (fun t => jsRound (t * sampleRate))

/-- The index-level view of one manual toggle: the peak array obtained from
the updated shot times, exactly as `onPeakToggle` computes `newPeaks`. -/
def toggleIndices (shotTimes : List ℚ) (clickedTime : ℚ) (sampleRate : ℚ) : List ℤ :=
  peaksOfTimes sampleRate (toggleTimes shotTimes clickedTime)

/- ── Helper lemmas about the toggle ── -/

theorem jsRound_intCast (i : ℤ) : jsRound (i : ℚ) = i := by
  unfold jsRound
  rw [Int.floor_eq_iff]
  constructor
  · simp
  · push_cast
    linarith

theorem toggleTimes_of_hit {S : List ℚ} {t : ℚ} (h : ∃ s ∈ S, |s - t| < rofTolerance) :
    toggleTimes S t =
      (S.eraseP (fun s => decide (|s - t| < rofTolerance))).insertionSort (· ≤ ·) := by
  unfold toggleTimes
  rw [if_pos h]

theorem toggleTimes_of_miss {S : List ℚ} {t : ℚ} (h : ¬ ∃ s ∈ S, |s - t| < rofTolerance) :
    toggleTimes S t = (S ++ [t]).insertionSort (· ≤ ·) := by
  unfold toggleTimes
  rw [if_neg h]

theorem toggleTimes_sorted (S : List ℚ) (t : ℚ) : (toggleTimes S t).Sorted (· ≤ ·) := by
  unfold toggleTimes
  exact List.sorted_insertionSort _ _

theorem toggleTimes_perm_miss {S : List ℚ} {t : ℚ} (h : ¬ ∃ s ∈ S, |s - t| < rofTolerance) :
    (toggleTimes S t).Perm (S ++ [t]) := by
  rw [toggleTimes_of_miss h]
  exact List.perm_insertionSort _ _

theorem toggleTimes_perm_hit {S : List ℚ} {t : ℚ} (h : ∃ s ∈ S, |s - t| < rofTolerance) :
    (toggleTimes S t).Perm (S.eraseP (fun s => decide (|s - t| < rofTolerance))) := by
  rw [toggleTimes_of_hit h]
  exact List.perm_insertionSort _ _

theorem eraseP_eq_erase_of_unique (a : ℚ) (p : ℚ → Bool) :
    ∀ l : List ℚ, (∀ x ∈ l, p x = true ↔ x = a) → l.eraseP p = l.erase a := by
  intro l
  induction l with
  | nil => intro _; rfl
  | cons x xs ih =>
    intro h
    by_cases hx : p x = true
    · have hxa : x = a := (h x (List.mem_cons_self x xs)).1 hx
      subst hxa
      rw [List.eraseP_cons_of_pos hx, List.erase_cons_head]
    · have hxa : x ≠ a := fun he => hx ((h x (List.mem_cons_self x xs)).2 he)
      rw [List.eraseP_cons_of_neg (by simpa using hx)]
      rw [List.erase_cons_tail]
      · rw [ih (fun y hy => h y (List.mem_cons_of_mem x hy))]
      · simpa using hxa

/-- C1 (counterexample): with sample rate 10 Hz, stored shot times `[0.5]` and a
click at `0.52`, no stored time is strictly within the 0.01 s tolerance, so the
code inserts; the recomputed index array is `[round(5), round(5.2)] = [5, 5]`,
which contains a duplicate — the ShotSet is not re-deduplicated. -/
theorem toggle_dedup_counterexample :
    toggleIndices [(1:ℚ)/2] (13/25) 10 = [5, 5] ∧
    ¬ (toggleIndices [(1:ℚ)/2] (13/25) 10).Nodup := by
  have htimes : toggleTimes [(1:ℚ)/2] (13/25) = [1/2, 13/25] := by
    rw [toggleTimes_of_miss (by norm_num [rofTolerance, abs_sub_lt_iff])]
    norm_num [List.insertionSort, List.orderedInsert]
  have hpeaks : toggleIndices [(1:ℚ)/2] (13/25) 10 = [5, 5] := by
    unfold toggleIndices peaksOfTimes jsRound
    rw [htimes]
    have h1 : (⌊(1:ℚ)/2 * 10 + 1/2⌋ : ℤ) = 5 := by
      rw [Int.floor_eq_iff]; norm_num
    have h2 : (⌊(13:ℚ)/25 * 10 + 1/2⌋ : ℤ) = 5 := by
      rw [Int.floor_eq_iff]; norm_num
    simp only [List.map_cons, List.map_nil]
    rw [h1, h2]
  refine ⟨hpeaks, ?_⟩
  rw [hpeaks]
  decide

/-- C1 (amended): the manual toggle is the case split of the claim — a shot
strictly within tolerance of the clicked time is removed (the first such, via
`findIndex`/`splice`), otherwise the clicked time is inserted and the new
index `round(t × r)` appears in the recomputed peak array; the result is
re-sorted ascending — but no deduplication is performed. -/
theorem onPeakToggle_case_split (S : List ℚ) (t r : ℚ) (hr : 0 ≤ r) :
    ((∃ s ∈ S, |s - t| < rofTolerance) →
        (toggleTimes S t).Perm (S.eraseP (fun s => decide (|s - t| < rofTolerance)))) ∧
    ((¬ ∃ s ∈ S, |s - t| < rofTolerance) →
        (toggleTimes S t).Perm (S ++ [t]) ∧ jsRound (t * r) ∈ toggleIndices S t r) ∧
    (toggleTimes S t).Sorted (· ≤ ·) ∧
    (toggleIndices S t r).Sorted (· ≤ ·) := by
  refine ⟨fun h => toggleTimes_perm_hit h, fun h => ⟨toggleTimes_perm_miss h, ?_⟩, ?_, ?_⟩
  · unfold toggleIndices peaksOfTimes
    refine List.mem_map_of_mem _ ?_
    exact ((toggleTimes_perm_miss h).mem_iff).2 (List.mem_append_right _ (List.mem_singleton.2 rfl))
  · exact toggleTimes_sorted S t
  · unfold toggleIndices peaksOfTimes
    refine (List.pairwise_map).2 ?_
    refine (toggleTimes_sorted S t).imp ?_
    intro a b hab
    exact Int.floor_mono (add_le_add_right (mul_le_mul_of_nonneg_right hab hr) _)

/-- C1 (witness): instantiation of the case split at the counterexample input:
the click at 0.52 is inserted and its rounded index appears in the peak
array. -/
theorem onPeakToggle_case_split_witness :
    (toggleTimes [(1:ℚ)/2] (13/25)).Perm ([(1:ℚ)/2] ++ [13/25]) ∧
    jsRound ((13:ℚ)/25 * 10) ∈ toggleIndices [(1:ℚ)/2] (13/25) 10 :=
  (onPeakToggle_case_split [(1:ℚ)/2] (13/25) 10 (by norm_num)).2.1
    (by norm_num [rofTolerance, abs_sub_lt_iff])

/-- C3: toggling an absent time inserts it and toggling it again removes
exactly the inserted time, restoring the original strictly-increasing
ShotSet. -/
theorem toggle_roundtrip (S : List ℚ) (t : ℚ) (hS : S.Sorted (· < ·))
    (ht : ∀ s ∈ S, ¬ |s - t| < rofTolerance) :
    toggleTimes (toggleTimes S t) t = S := by
  have hmiss : ¬ ∃ s ∈ S, |s - t| < rofTolerance := by
    rintro ⟨s, hs, hlt⟩
    exact ht s hs hlt
  have hT : (toggleTimes S t).Perm (S ++ [t]) := toggleTimes_perm_miss hmiss
  have htS : t ∉ S := fun hm => ht t hm (by simp [rofTolerance])
  have hmem : t ∈ toggleTimes S t :=
    hT.mem_iff.2 (List.mem_append_right _ (List.mem_singleton.2 rfl))
  have hhit : ∃ s ∈ toggleTimes S t, |s - t| < rofTolerance :=
    ⟨t, hmem, by simp [rofTolerance]⟩
  rw [toggleTimes_of_hit hhit]
  have herase : (toggleTimes S t).eraseP (fun s => decide (|s - t| < rofTolerance)) =
      (toggleTimes S t).erase t := by
    refine eraseP_eq_erase_of_unique t _ _ ?_
    intro x hx
    constructor
    · intro hpx
      rcases List.mem_append.1 (hT.mem_iff.1 hx) with hxS | hxt
      · exact absurd (of_decide_eq_true hpx) (ht x hxS)
      · simpa using hxt
    · intro hxt
      subst hxt
      simp [rofTolerance]
  have hperm : ((toggleTimes S t).erase t).Perm S := by
    refine (hT.erase t).trans ?_
    rw [List.erase_append_right _ htS, List.erase_cons_head]
    simp
  have hsorted : ((toggleTimes S t).erase t).Sorted (· ≤ ·) :=
    (toggleTimes_sorted S t).sublist (List.erase_sublist t (toggleTimes S t))
  rw [herase, hsorted.insertionSort_eq]
  exact List.eq_of_perm_of_sorted hperm hsorted hS.le_of_lt

/-- C3 (witness): for the singleton ShotSet `[0]` and the absent time `1`,
two toggles restore `[0]`. -/
theorem toggle_roundtrip_witness : toggleTimes (toggleTimes [(0:ℚ)] 1) 1 = [(0:ℚ)] :=
  toggle_roundtrip [(0:ℚ)] 1 (by simp) (by norm_num [rofTolerance])

/-- C10: the toggle tolerance is the hardcoded constant 0.01 s (the function
reads neither the configuration nor the sample rate), and the removal test is
a strict inequality: a click at exactly 0.01 s from every stored shot inserts
a new shot — the boundary shot is retained, not removed. -/
theorem tolerance_hardcoded_strict (S : List ℚ) (t s₀ : ℚ) (h₀ : s₀ ∈ S)
    (he : |s₀ - t| = rofTolerance) (hall : ∀ s ∈ S, rofTolerance ≤ |s - t|) :
    rofTolerance = 1/100 ∧ (toggleTimes S t).Perm (S ++ [t]) ∧ s₀ ∈ toggleTimes S t := by
  have hmiss : ¬ ∃ s ∈ S, |s - t| < rofTolerance := by
    rintro ⟨s, hs, hlt⟩
    exact absurd hlt (not_lt.2 (hall s hs))
  refine ⟨rfl, toggleTimes_perm_miss hmiss, ?_⟩
  exact (toggleTimes_perm_miss hmiss).mem_iff.2 (List.mem_append_left _ h₀)

/-- C10 (witness): a stored shot at 0 with a click at exactly 0.01 s away is
kept and the click is inserted. -/
theorem tolerance_hardcoded_strict_witness :
    rofTolerance = 1/100 ∧ (toggleTimes [(0:ℚ)] (1/100)).Perm ([(0:ℚ)] ++ [1/100]) ∧
    (0:ℚ) ∈ toggleTimes [(0:ℚ)] (1/100) :=
  tolerance_hardcoded_strict [(0:ℚ)] (1/100) 0 (by simp)
    (by rw [rofTolerance, zero_sub, abs_neg]; exact abs_of_nonneg (by norm_num))
    (by
      intro s hs
      simp only [List.mem_singleton] at hs
      subst hs
      rw [rofTolerance, zero_sub, abs_neg, abs_of_nonneg (by norm_num : (0:ℚ) ≤ 1/100)])

/- ── ShotSet invariant (claim C2) ──
The automatic detector (`rof-detector.js`) is not among the available
sources; per the specification its ShotSet is a strictly increasing sequence
of sample indices inside `[0, sampleCount)`, held by the UI as the times
`index / sampleRate`.  Clicks arrive from Plotly data points, whose x values
are exactly such grid times. -/

/-- Modelled from the spec: a time on the sample grid of a recording with
`n` samples at rate `r` — the form `index / sampleRate` taken by every
x coordinate the chart can deliver to `onPeakToggle`. -/
def isGridTime (r : ℚ) (n : ℕ) (t : ℚ) : Prop :=
  ∃ i : ℕ, i < n ∧ t = (i : ℚ) / r

/-- Modelled from the spec: the ShotSet representation invariant — shot times
strictly increasing and all on the sample grid (spec section 3, ShotSet). -/
def ShotSetOK (r : ℚ) (n : ℕ) (l : List ℚ) : Prop :=
  l.Sorted (· < ·) ∧ ∀ t ∈ l, isGridTime r n t

theorem toggleTimes_preserves_ok {r : ℚ} {n : ℕ} {l : List ℚ} {c : ℚ}
    (hl : ShotSetOK r n l) (hc : isGridTime r n c) : ShotSetOK r n (toggleTimes l c) := by
  obtain ⟨hsort, hgrid⟩ := hl
  have hnodup : l.Nodup := hsort.nodup
  by_cases h : ∃ s ∈ l, |s - c| < rofTolerance
  · have hperm := toggleTimes_perm_hit h
    have hnd : (toggleTimes l c).Nodup :=
      hperm.symm.nodup (hnodup.sublist (List.eraseP_sublist l))
    refine ⟨(toggleTimes_sorted l c).lt_of_le hnd, ?_⟩
    intro t ht
    exact hgrid t ((List.eraseP_sublist l).subset (hperm.mem_iff.1 ht))
  · have hperm := toggleTimes_perm_miss h
    have hcl : c ∉ l := by
      intro hm
      exact h ⟨c, hm, by norm_num [rofTolerance]⟩
    have hnd : (toggleTimes l c).Nodup := by
      refine hperm.symm.nodup (List.nodup_append.2 ⟨hnodup, by simp, ?_⟩)
      intro a ha hat
      rw [List.mem_singleton] at hat
      subst hat
      exact hcl ha
    refine ⟨(toggleTimes_sorted l c).lt_of_le hnd, ?_⟩
    intro t ht
    rcases List.mem_append.1 (hperm.mem_iff.1 ht) with htl | htc
    · exact hgrid t htl
    · rw [List.mem_singleton] at htc
      subst htc
      exact hc

theorem jsRound_grid {r : ℚ} (hr : r ≠ 0) (i : ℕ) : jsRound ((i : ℚ) / r * r) = (i : ℤ) := by
  rw [div_mul_cancel₀ _ hr]
  rw [show ((i : ℕ) : ℚ) = ((i : ℤ) : ℚ) by push_cast; rfl]
  exact jsRound_intCast (i : ℤ)

theorem peaksOfTimes_ok {r : ℚ} {n : ℕ} {l : List ℚ} (hr : 0 < r) (h : ShotSetOK r n l) :
    (peaksOfTimes r l).Sorted (· < ·) ∧ ∀ k ∈ peaksOfTimes r l, 0 ≤ k ∧ k < (n : ℤ) := by
  obtain ⟨hsort, hgrid⟩ := h
  constructor
  · refine (List.pairwise_map).2 ?_
    refine hsort.imp_of_mem ?_
    intro a b ha hb hab
    obtain ⟨i, _, rfl⟩ := hgrid a ha
    obtain ⟨j, _, rfl⟩ := hgrid b hb
    rw [jsRound_grid hr.ne' i, jsRound_grid hr.ne' j]
    have hij : (i : ℚ) < (j : ℚ) := (div_lt_div_iff_of_pos_right hr).1 hab
    exact_mod_cast hij
  · intro k hk
    obtain ⟨t, ht, rfl⟩ := List.mem_map.1 hk
    obtain ⟨i, hi, rfl⟩ := hgrid t ht
    rw [jsRound_grid hr.ne' i]
    exact ⟨Int.natCast_nonneg i, by exact_mod_cast hi⟩

theorem shotSetOK_foldl {r : ℚ} {n : ℕ} :
    ∀ clicks init : List ℚ, ShotSetOK r n init → (∀ c ∈ clicks, isGridTime r n c) →
      ShotSetOK r n (clicks.foldl toggleTimes init)
  | [], _, h0, _ => h0
  | c :: cs, init, h0, hc => by
    rw [List.foldl_cons]
    exact shotSetOK_foldl cs (toggleTimes init c)
      (toggleTimes_preserves_ok h0 (hc c (List.mem_cons_self c cs)))
      (fun x hx => hc x (List.mem_cons_of_mem c hx))

/-- C2: starting from a detected ShotSet (strictly increasing grid times in
`[0, sampleCount)`, per the spec of the absent detector) and applying any
sequence of manual toggles at chart click positions, the recomputed peak
index array is strictly increasing (no duplicate sample indices) and every
index lies in `[0, sampleCount)`. -/
theorem shotSet_invariant (r : ℚ) (n : ℕ) (hr : 0 < r) (detected clicks : List ℚ)
    (h0 : ShotSetOK r n detected) (hc : ∀ c ∈ clicks, isGridTime r n c) :
    (peaksOfTimes r (clicks.foldl toggleTimes detected)).Sorted (· < ·) ∧
    ∀ k ∈ peaksOfTimes r (clicks.foldl toggleTimes detected), 0 ≤ k ∧ k < (n : ℤ) :=
  peaksOfTimes_ok hr (shotSetOK_foldl clicks detected h0 hc)

/-- C2 (witness): one detected shot at sample 3 of 50 at 100 Hz, then a
manual toggle at the grid time of sample 7. -/
theorem shotSet_invariant_witness :
    (peaksOfTimes 100 (List.foldl toggleTimes [(3:ℚ)/100] [(7:ℚ)/100])).Sorted (· < ·) ∧
    ∀ k ∈ peaksOfTimes 100 (List.foldl toggleTimes [(3:ℚ)/100] [(7:ℚ)/100]),
      0 ≤ k ∧ k < ((50:ℕ) : ℤ) :=
  shotSet_invariant 100 50 (by norm_num) [(3:ℚ)/100] [(7:ℚ)/100]
    ⟨by simp, by
      intro t ht
      rw [List.mem_singleton] at ht
      subst ht
      exact ⟨3, by norm_num, by norm_num⟩⟩
    (by
      intro c hc
      rw [List.mem_singleton] at hc
      subst hc
      exact ⟨7, by norm_num, by norm_num⟩)

/- ── Configuration handling (src/src/main.js analyzeRateOfFire, lines 136-148,
and the input ranges declared in src/templates/view.php lines 28-64) ── -/

/-- The six control values as parsed from the DOM inputs by
`analyzeRateOfFire` (`parseFloat`/`parseInt` of the input elements). -/
structure RawControls where
  peakThresholdValue : ℚ
  minShotSpacingValue : ℚ
  burstGapThresholdValue : ℚ
  windowSizeValue : ℚ
  minPeakProminenceValue : ℚ
  minBurstCountValue : ℕ

/-- The detector configuration, the six named fields of the spec. -/
structure ROFParams where
  peakThresholdStd : ℚ
  minShotSpacing : ℚ
  burstGapThreshold : ℚ
  windowSize : ℚ
  minPeakProminence : ℚ
  minBurstCount : ℕ

/-- The `params` object literal built by `analyzeRateOfFire`
(src/src/main.js lines 137-144): each field is the parsed control value,
verbatim — there is no clamping and no range check. -/
def mkAnalysisParams (c : RawControls) : ROFParams :=
  { peakThresholdStd := c.peakThresholdValue
    minShotSpacing := c.minShotSpacingValue
    burstGapThreshold := c.burstGapThresholdValue
    windowSize := c.windowSizeValue
    minPeakProminence := c.minPeakProminenceValue
    minBurstCount := c.minBurstCountValue }

/-- The parameter stage of `analyzeRateOfFire` seen as a fallible step: the
source builds `params` and immediately constructs `RateOfFireDetector` with
it (src/src/main.js lines 146-148); no validation branch exists, so the step
always succeeds. -/
def analyzeRateOfFireParams (c : RawControls) : Except String ROFParams :=
  Except.ok (mkAnalysisParams c)

/-- The valid ranges of the six configuration fields as stated by the spec
(section 3) and by the `min`/`max` attributes of the HTML inputs in
src/templates/view.php. -/
def paramsInRange (p : ROFParams) : Prop :=
  (1/10 ≤ p.peakThresholdStd ∧ p.peakThresholdStd ≤ 5) ∧
  (1/100 ≤ p.minShotSpacing ∧ p.minShotSpacing ≤ 1) ∧
  (1/20 ≤ p.burstGapThreshold ∧ p.burstGapThreshold ≤ 2) ∧
  (1/1000 ≤ p.windowSize ∧ p.windowSize ≤ 1/100) ∧
  (1/100 ≤ p.minPeakProminence ∧ p.minPeakProminence ≤ 1) ∧
  (1 ≤ p.minBurstCount ∧ p.minBurstCount ≤ 50)

/-- C4 (counterexample): a configuration with `peakThresholdStd = 10`
(outside 0.1-5.0) is out of range, yet the parameter stage succeeds and hands
the unclamped value 10 to the detector — no InvalidConfiguration error is
surfaced. -/
theorem config_unvalidated_counterexample :
    analyzeRateOfFireParams ⟨10, 1/20, 1/5, 1/500, 1/10, 5⟩ =
      Except.ok ⟨10, 1/20, 1/5, 1/500, 1/10, 5⟩ ∧
    ¬ paramsInRange ⟨10, 1/20, 1/5, 1/500, 1/10, 5⟩ ∧
    (mkAnalysisParams ⟨10, 1/20, 1/5, 1/500, 1/10, 5⟩).peakThresholdStd = 10 := by
  refine ⟨rfl, ?_, rfl⟩
  intro h
  have := h.1.2
  norm_num at this

/-- C4 (amended): `analyzeRateOfFire` performs no range validation at all:
even for a configuration outside the documented ranges the parameter stage
succeeds and every field reaches the detector verbatim, unclamped; the valid
ranges exist only as HTML `min`/`max` attributes on the inputs. -/
theorem config_passthrough_unvalidated (c : RawControls)
    (h : ¬ paramsInRange (mkAnalysisParams c)) :
    analyzeRateOfFireParams c = Except.ok (mkAnalysisParams c) ∧
    (mkAnalysisParams c).peakThresholdStd = c.peakThresholdValue ∧
    (mkAnalysisParams c).minShotSpacing = c.minShotSpacingValue ∧
    (mkAnalysisParams c).burstGapThreshold = c.burstGapThresholdValue ∧
    (mkAnalysisParams c).windowSize = c.windowSizeValue ∧
    (mkAnalysisParams c).minPeakProminence = c.minPeakProminenceValue ∧
    (mkAnalysisParams c).minBurstCount = c.minBurstCountValue :=
  ⟨rfl, rfl, rfl, rfl, rfl, rfl, rfl⟩

/-- C4 (witness): the amended pass-through fact at the out-of-range input of
the counterexample. -/
theorem config_passthrough_unvalidated_witness :
    analyzeRateOfFireParams ⟨10, 1/20, 1/5, 1/500, 1/10, 5⟩ =
      Except.ok (mkAnalysisParams ⟨10, 1/20, 1/5, 1/500, 1/10, 5⟩) ∧
    (mkAnalysisParams ⟨10, 1/20, 1/5, 1/500, 1/10, 5⟩).peakThresholdStd = 10 ∧
    (mkAnalysisParams ⟨10, 1/20, 1/5, 1/500, 1/10, 5⟩).minShotSpacing = 1/20 ∧
    (mkAnalysisParams ⟨10, 1/20, 1/5, 1/500, 1/10, 5⟩).burstGapThreshold = 1/5 ∧
    (mkAnalysisParams ⟨10, 1/20, 1/5, 1/500, 1/10, 5⟩).windowSize = 1/500 ∧
    (mkAnalysisParams ⟨10, 1/20, 1/5, 1/500, 1/10, 5⟩).minPeakProminence = 1/10 ∧
    (mkAnalysisParams ⟨10, 1/20, 1/5, 1/500, 1/10, 5⟩).minBurstCount = 5 :=
  config_passthrough_unvalidated ⟨10, 1/20, 1/5, 1/500, 1/10, 5⟩
    (by
      intro h
      have := h.1.2
      norm_num [mkAnalysisParams] at this)

/- ── Burst Segmenter and Cadence Calculator ──
`rof-detector.js` (methods `groupIntoBursts`, `calculateRates`,
`generateSummary` re-invoked by `onPeakToggle`) is not among the available
sources.  The definitions below are modelled from the specification,
sections 4.3 and 4.4.  The population standard deviation of the intervals is
represented by its square (the variance), which keeps the model inside `ℚ`;
it is zero exactly when the standard deviation is zero. -/

/-- Modelled from the spec (section 4.4, absent `rof-detector.js`):
inter-shot intervals — consecutive timestamp differences. -/
def intervals : List ℚ → List ℚ
  | a :: b :: rest => (b - a) :: intervals (b :: rest)
  | _ => []

/-- Modelled from the spec (section 7, absent `rof-detector.js`): arithmetic
mean guarded against the zero-length list, returning the sentinel 0. -/
def qmean (l : List ℚ) : ℚ :=
  if l.length = 0 then 0 else l.sum / l.length

/-- Modelled from the spec (section 4.4, absent `rof-detector.js`): minimum
of a rate list, sentinel 0 when empty. -/
def qmin : List ℚ → ℚ
  | [] => 0
  | x :: xs => xs.foldl min x

/-- Modelled from the spec (section 4.4, absent `rof-detector.js`): maximum
of a rate list, sentinel 0 when empty. -/
def qmax : List ℚ → ℚ
  | [] => 0
  | x :: xs => xs.foldl max x

/-- Per-burst record of the spec (section 3, Burst), with the standard
deviation of intervals carried as its square `stdIntervalSq`. -/
structure BurstStats where
  burstNumber : ℕ
  numShots : ℕ
  startTime : ℚ
  endTime : ℚ
  duration : ℚ
  meanInterval : ℚ
  stdIntervalSq : ℚ
  meanDeviation : ℚ
  rateRpm : ℚ

/-- Modelled from the spec (section 4.4, absent `rof-detector.js`): per-burst
statistics.  For `numShots ≥ 2` the interval statistics are computed; for a
smaller burst every derived statistic and the duration are the sentinel 0. -/
def calcBurstStats (k : ℕ) (ts : List ℚ) : BurstStats :=
  if 2 ≤ ts.length then
    { burstNumber := k
      numShots := ts.length
      startTime := ts.headD 0
      endTime := ts.getLastD 0
      duration := ts.getLastD 0 - ts.headD 0
      meanInterval := qmean (intervals ts)
      stdIntervalSq := qmean ((intervals ts).map fun x => (x - qmean (intervals ts)) ^ 2)
      meanDeviation := qmean ((intervals ts).map fun x => |x - qmean (intervals ts)|)
      rateRpm := 60 / qmean (intervals ts) }
  else
    { burstNumber := k
      numShots := ts.length
      startTime := ts.headD 0
      endTime := ts.headD 0
      duration := 0
      meanInterval := 0
      stdIntervalSq := 0
      meanDeviation := 0
      rateRpm := 0 }

/-- Modelled from the spec (section 4.3, absent `rof-detector.js`): split the
ascending shot times into gap-groups — a new group starts whenever the gap
between consecutive timestamps exceeds `burstGapThreshold`. -/
def splitByGap (gap : ℚ) : List ℚ → List (List ℚ)
  | [] => []
  | [t] => [[t]]
  | a :: b :: rest =>
    match splitByGap gap (b :: rest) with
    | [] => [[a]]
    | g :: gs => if gap < b - a then [a] :: g :: gs else (a :: g) :: gs

/-- Modelled from the spec (section 4.3, absent `rof-detector.js`): the burst
segmenter — gap-groups whose shot count reaches `minBurstCount`; undersized
groups are discarded, their shots staying in the ShotSet. -/
def segmentBursts (p : ROFParams) (ts : List ℚ) : List (List ℚ) :=
  (splitByGap p.burstGapThreshold ts).filter (fun g => p.minBurstCount ≤ g.length)

/-- Modelled from the spec (sections 4.3-4.4, absent `rof-detector.js`): the
cadence calculator over the reported bursts, renumbered 1..N in order. -/
def calculateRates (groups : List (List ℚ)) : List BurstStats :=
  groups.enum.map (fun e => calcBurstStats (e.1 + 1) e.2)

/-- Aggregate summary record of the spec (section 3, Summary), with
`avgStdIntervalSq` carrying the mean of the per-burst interval variances. -/
structure Summary where
  totalShots : ℕ
  totalBursts : ℕ
  meanBurstRateRpm : ℚ
  minBurstRateRpm : ℚ
  maxBurstRateRpm : ℚ
  avgStdIntervalSq : ℚ
  avgMeanDeviation : ℚ

/-- Modelled from the spec (section 4.4, absent `rof-detector.js`): the
aggregate summary — totals over all reported bursts, rate statistics over the
bursts with at least two shots, every field the sentinel 0 when no burst
qualifies. -/
def generateSummary (bs : List BurstStats) : Summary :=
  { totalShots := (bs.map (fun b => b.numShots)).sum
    totalBursts := bs.length
    meanBurstRateRpm := qmean ((bs.filter (fun b => 2 ≤ b.numShots)).map (fun b => b.rateRpm))
    minBurstRateRpm := qmin ((bs.filter (fun b => 2 ≤ b.numShots)).map (fun b => b.rateRpm))
    maxBurstRateRpm := qmax ((bs.filter (fun b => 2 ≤ b.numShots)).map (fun b => b.rateRpm))
    avgStdIntervalSq :=
      qmean ((bs.filter (fun b => 2 ≤ b.numShots)).map (fun b => b.stdIntervalSq))
    avgMeanDeviation :=
      qmean ((bs.filter (fun b => 2 ≤ b.numShots)).map (fun b => b.meanDeviation)) }

/- ── Statistics guard lemmas ── -/

theorem intervals_length : ∀ l : List ℚ, (intervals l).length = l.length - 1
  | [] => rfl
  | [_] => rfl
  | a :: b :: rest => by
    have ih := intervals_length (b :: rest)
    simp only [intervals, List.length_cons] at ih ⊢
    omega

theorem intervals_pos : ∀ l : List ℚ, l.Sorted (· < ·) → ∀ x ∈ intervals l, 0 < x
  | [], _, x, hx => by simp [intervals] at hx
  | [_], _, x, hx => by simp [intervals] at hx
  | a :: b :: rest, h, x, hx => by
    rw [List.sorted_cons] at h
    simp only [intervals, List.mem_cons] at hx
    rcases hx with hx | hx
    · subst hx
      exact sub_pos.2 (h.1 b (List.mem_cons_self b rest))
    · exact intervals_pos (b :: rest) h.2 x hx

theorem qmean_pos {l : List ℚ} (hne : l ≠ []) (hpos : ∀ x ∈ l, 0 < x) : 0 < qmean l := by
  unfold qmean
  rw [if_neg (by simpa using hne)]
  refine div_pos (List.sum_pos l hpos hne) ?_
  exact_mod_cast List.length_pos.2 hne

/-- C5: a burst with a single shot reports every derived statistic and the
duration as the sentinel 0; the mean of an empty interval list is the
sentinel 0 rather than a division by zero; and on any strictly increasing
multi-shot burst the mean interval is strictly positive, so the division
`60 / meanInterval` producing `rateRpm` never divides by zero. -/
theorem single_shot_sentinel_stats (k : ℕ) :
    (∀ ts : List ℚ, ts.length = 1 →
        (calcBurstStats k ts).meanInterval = 0 ∧
        (calcBurstStats k ts).stdIntervalSq = 0 ∧
        (calcBurstStats k ts).meanDeviation = 0 ∧
        (calcBurstStats k ts).rateRpm = 0 ∧
        (calcBurstStats k ts).duration = 0) ∧
    qmean [] = 0 ∧
    (∀ ts : List ℚ, ts.Sorted (· < ·) → 2 ≤ ts.length →
        0 < (calcBurstStats k ts).meanInterval) := by
  refine ⟨?_, rfl, ?_⟩
  · intro ts hts
    have hlt : ¬ 2 ≤ ts.length := by omega
    simp [calcBurstStats, hlt]
  · intro ts hsort hlen
    have hne : intervals ts ≠ [] := by
      refine List.ne_nil_of_length_pos ?_
      rw [intervals_length ts]
      omega
    simp only [calcBurstStats, if_pos hlen]
    exact qmean_pos hne (intervals_pos ts hsort)

/-- C5 (witness): the single-shot burst `[3]` reports zero statistics, and a
two-shot burst 0.1 s apart has a strictly positive mean interval. -/
theorem single_shot_sentinel_stats_witness :
    ((calcBurstStats 1 [(3:ℚ)]).rateRpm = 0 ∧ (calcBurstStats 1 [(3:ℚ)]).duration = 0) ∧
    0 < (calcBurstStats 1 [(0:ℚ), 1/10]).meanInterval := by
  refine ⟨?_, ?_⟩
  · have h := (single_shot_sentinel_stats 1).1 [(3:ℚ)] (by simp)
    exact ⟨h.2.2.2.1, h.2.2.2.2⟩
  · refine (single_shot_sentinel_stats 1).2.2 [(0:ℚ), 1/10] ?_ (by simp)
    norm_num [List.sorted_cons]

theorem splitByGap_flatten (gap : ℚ) : ∀ l : List ℚ, (splitByGap gap l).flatten = l
  | [] => rfl
  | [t] => rfl
  | a :: b :: rest => by
    have ih := splitByGap_flatten gap (b :: rest)
    cases hsp : splitByGap gap (b :: rest) with
    | nil =>
      rw [hsp] at ih
      simp at ih
    | cons g gs =>
      rw [hsp] at ih
      have hdef : splitByGap gap (a :: b :: rest) =
          if gap < b - a then [a] :: g :: gs else (a :: g) :: gs := by
        simp only [splitByGap, hsp]
      rw [hdef]
      by_cases hgap : gap < b - a
      · rw [if_pos hgap]
        simp only [List.flatten_cons] at ih ⊢
        simp [ih]
      · rw [if_neg hgap]
        simp only [List.flatten_cons] at ih ⊢
        rw [List.cons_append, ih]

/-- C6: whenever every gap-group falls below `minBurstCount`, the segmenter
reports no bursts, the cadence calculator returns an empty burst list, the
summary is all-zero — and this is a normal return, with every shot still in
the ShotSet (the gap-groups partition the ShotSet exactly). -/
theorem zero_bursts_zero_summary (p : ROFParams) (ts : List ℚ)
    (h : ∀ g ∈ splitByGap p.burstGapThreshold ts, g.length < p.minBurstCount) :
    segmentBursts p ts = [] ∧
    calculateRates (segmentBursts p ts) = [] ∧
    generateSummary (calculateRates (segmentBursts p ts)) =
      ⟨0, 0, 0, 0, 0, 0, 0⟩ ∧
    (splitByGap p.burstGapThreshold ts).flatten = ts := by
  have hseg : segmentBursts p ts = [] := by
    unfold segmentBursts
    rw [List.filter_eq_nil_iff]
    intro g hg
    have := h g hg
    simp only [decide_eq_true_eq]
    omega
  refine ⟨hseg, ?_, ?_, splitByGap_flatten _ ts⟩
  · rw [hseg]
    rfl
  · rw [hseg]
    rfl

/-- C6 (witness): a single isolated shot with `minBurstCount = 5` yields no
reported bursts, an empty burst list, and an all-zero summary, with the shot
surviving in the gap-group partition. -/
theorem zero_bursts_zero_summary_witness :
    segmentBursts ⟨6/5, 1/20, 1/5, 1/500, 1/10, 5⟩ [(3:ℚ)] = [] ∧
    calculateRates (segmentBursts ⟨6/5, 1/20, 1/5, 1/500, 1/10, 5⟩ [(3:ℚ)]) = [] ∧
    generateSummary (calculateRates (segmentBursts ⟨6/5, 1/20, 1/5, 1/500, 1/10, 5⟩ [(3:ℚ)])) =
      ⟨0, 0, 0, 0, 0, 0, 0⟩ ∧
    (splitByGap (⟨6/5, 1/20, 1/5, 1/500, 1/10, 5⟩ : ROFParams).burstGapThreshold
        [(3:ℚ)]).flatten = [(3:ℚ)] :=
  zero_bursts_zero_summary ⟨6/5, 1/20, 1/5, 1/500, 1/10, 5⟩ [(3:ℚ)]
    (by
      intro g hg
      simp only [splitByGap, List.mem_singleton] at hg
      subst hg
      simp)

/- ── Session recomputation (src/src/main.js onPeakToggle, lines 160-177) ── -/

/-- The mutable analysis state the UI holds across a manual edit: the
detector shot times, and the `currentResults` fields `peaks`, `bursts`,
`summary` and `audioDuration`. -/
structure SessionResults where
  shotTimes : List ℚ
  peaks : List ℤ
  bursts : List BurstStats
  summary : Summary
  audioDuration : ℚ

/-- One full `onPeakToggle` step (src/src/main.js lines 160-177): toggle the
shot times, recompute the peak indices, re-invoke the burst segmenter and
cadence calculator on the updated ShotSet, and rebuild `currentResults` by
spreading the old object with the freshly computed `summary`, `bursts` and
`peaks` (other fields such as the audio duration are carried over). -/
def onPeakToggleStep (p : ROFParams) (sampleRate : ℚ) (s : SessionResults)
    (clickedTime : ℚ) : SessionResults :=
  { shotTimes := toggleTimes s.shotTimes clickedTime
    peaks := peaksOfTimes sampleRate (toggleTimes s.shotTimes clickedTime)
    bursts := calculateRates (segmentBursts p (toggleTimes s.shotTimes clickedTime))
    summary :=
      generateSummary (calculateRates (segmentBursts p (toggleTimes s.shotTimes clickedTime)))
    audioDuration := s.audioDuration }

/-- C7: after a manual edit the burst list and summary are full
recomputations from the updated ShotSet alone — two sessions with the same
shot times but arbitrarily different previous bursts and summaries produce
identical new bursts, summary and peaks, and the new values equal the
segmenter/calculator pipeline applied afresh to the new ShotSet. -/
theorem recompute_independent_of_previous (p : ROFParams) (r c : ℚ)
    (s₁ s₂ : SessionResults) (h : s₁.shotTimes = s₂.shotTimes) :
    (onPeakToggleStep p r s₁ c).bursts = (onPeakToggleStep p r s₂ c).bursts ∧
    (onPeakToggleStep p r s₁ c).summary = (onPeakToggleStep p r s₂ c).summary ∧
    (onPeakToggleStep p r s₁ c).peaks = (onPeakToggleStep p r s₂ c).peaks ∧
    (onPeakToggleStep p r s₁ c).bursts =
      calculateRates (segmentBursts p (onPeakToggleStep p r s₁ c).shotTimes) ∧
    (onPeakToggleStep p r s₁ c).summary =
      generateSummary ((onPeakToggleStep p r s₁ c).bursts) := by
  simp [onPeakToggleStep, h]

/-- Sample session state with empty derived results. -/
def sessionA : SessionResults :=
  ⟨[(1:ℚ)/10, 2/10], [], [], ⟨0, 0, 0, 0, 0, 0, 0⟩, 0⟩

/-- Sample session state with the same shot times but different stale
results. -/
def sessionB : SessionResults :=
  ⟨[(1:ℚ)/10, 2/10], [9], [calcBurstStats 7 [(0:ℚ), 1]], ⟨3, 4, 5, 6, 7, 8, 9⟩, 2⟩

/-- C7 (witness): the recomputation coincides on two sessions that share
shot times but differ in every stale derived field. -/
theorem recompute_independent_of_previous_witness :
    (onPeakToggleStep ⟨6/5, 1/20, 1/5, 1/500, 1/10, 2⟩ 100 sessionA (3/10)).bursts =
      (onPeakToggleStep ⟨6/5, 1/20, 1/5, 1/500, 1/10, 2⟩ 100 sessionB (3/10)).bursts ∧
    (onPeakToggleStep ⟨6/5, 1/20, 1/5, 1/500, 1/10, 2⟩ 100 sessionA (3/10)).summary =
      (onPeakToggleStep ⟨6/5, 1/20, 1/5, 1/500, 1/10, 2⟩ 100 sessionB (3/10)).summary ∧
    (onPeakToggleStep ⟨6/5, 1/20, 1/5, 1/500, 1/10, 2⟩ 100 sessionA (3/10)).peaks =
      (onPeakToggleStep ⟨6/5, 1/20, 1/5, 1/500, 1/10, 2⟩ 100 sessionB (3/10)).peaks ∧
    (onPeakToggleStep ⟨6/5, 1/20, 1/5, 1/500, 1/10, 2⟩ 100 sessionA (3/10)).bursts =
      calculateRates (segmentBursts ⟨6/5, 1/20, 1/5, 1/500, 1/10, 2⟩
        (onPeakToggleStep ⟨6/5, 1/20, 1/5, 1/500, 1/10, 2⟩ 100 sessionA (3/10)).shotTimes) ∧
    (onPeakToggleStep ⟨6/5, 1/20, 1/5, 1/500, 1/10, 2⟩ 100 sessionA (3/10)).summary =
      generateSummary ((onPeakToggleStep ⟨6/5, 1/20, 1/5, 1/500, 1/10, 2⟩ 100
        sessionA (3/10)).bursts) :=
  recompute_independent_of_previous ⟨6/5, 1/20, 1/5, 1/500, 1/10, 2⟩ 100 (3/10)
    sessionA sessionB rfl

/- ── Visualizer (src/src/visualizer.js) ── -/

/-- `createTimeArray` (src/src/visualizer.js lines 188-194):
`times[i] = i / sampleRate` for every index of the waveform time axis. -/
def createTimeArray (length : ℕ) (sampleRate : ℚ) : List ℚ :=
  (List.range length).map (fun (i : ℕ) => (i : ℚ) / sampleRate)

/-- The peak-marker times of `render` (src/src/visualizer.js line 51):
`results.peaks.map(idx => idx / sampleRate)`. -/
def peakTimes (peaks : List ℤ) (sampleRate : ℚ) : List ℚ :=
  peaks.map (fun (idx : ℤ) => (idx : ℚ) / sampleRate)

/-- C8: the index-to-time mapping is exactly `sampleIndex / sampleRate`
everywhere — at every index of the waveform time axis and for every rendered
shot marker — with no offset and no rounding. -/
theorem index_time_mapping_exact (n : ℕ) (r : ℚ) (peaks : List ℤ) (i j : ℕ)
    (hi : i < n) (hj : j < peaks.length) :
    (createTimeArray n r).getD i 0 = (i : ℚ) / r ∧
    (peakTimes peaks r).getD j 0 = ((peaks.getD j 0 : ℤ) : ℚ) / r := by
  constructor
  · rw [createTimeArray, List.getD_eq_getElem?_getD, List.getElem?_map,
      List.getElem?_range hi]
    rfl
  · rw [peakTimes, List.getD_eq_getElem?_getD, List.getElem?_map,
      List.getElem?_eq_getElem hj, List.getD_eq_getElem?_getD,
      List.getElem?_eq_getElem hj]
    rfl

/-- C8 (witness): index 2 of a 4-sample axis at 48000 Hz maps to `2 / 48000`,
and the second peak marker of `[3, 7]` maps to its index over the rate. -/
theorem index_time_mapping_exact_witness :
    (createTimeArray 4 48000).getD 2 0 = ((2:ℕ) : ℚ) / 48000 ∧
    (peakTimes [3, 7] 48000).getD 1 0 = ((([3, 7] : List ℤ).getD 1 0 : ℤ) : ℚ) / 48000 :=
  index_time_mapping_exact 4 48000 [3, 7] 2 1 (by norm_num) (by simp)

/-- The downsampling loop of `ROFVisualizer.downsample`
(src/src/visualizer.js lines 208-211): `for (i = 0; i < data.length;
i += step)` pushing `data[i]` and `timeArray[i]` together.  The `0 < step`
guard only renders the recursion total; every caller passes `step ≥ 1`. -/
def downsampleLoop (data time : List ℚ) (step i : ℕ) : List ℚ × List ℚ :=
  if h : i < data.length ∧ 0 < step then
    ((data.getD i 0) :: (downsampleLoop data time step (i + step)).1,
     (time.getD i 0) :: (downsampleLoop data time step (i + step)).2)
  else ([], [])
termination_by data.length - i
decreasing_by omega

/-- `ROFVisualizer.downsample` (src/src/visualizer.js lines 199-214): pass
the two arrays through unchanged when short enough, otherwise stride by
`step = floor(length / maxPoints)`. -/
def downsample (data time : List ℚ) (maxPoints : ℕ) : List ℚ × List ℚ :=
  if data.length ≤ maxPoints then (data, time)
  else downsampleLoop data time (data.length / maxPoints) 0

theorem downsampleLoop_getElem? (data time : List ℚ) (step : ℕ) (hs : 0 < step)
    (hlen : time.length = data.length) :
    ∀ k i : ℕ,
      (downsampleLoop data time step i).1[k]? =
        (if i + k * step < data.length then data[i + k * step]? else none) ∧
      (downsampleLoop data time step i).2[k]? =
        (if i + k * step < data.length then time[i + k * step]? else none)
  | 0, i => by
    rw [downsampleLoop]
    by_cases hi : i < data.length
    · rw [dif_pos ⟨hi, hs⟩]
      have hit : i < time.length := by omega
      constructor
      · simp only [List.getElem?_cons_zero, Nat.zero_mul, Nat.add_zero, if_pos hi]
        rw [List.getD_eq_getElem?_getD, List.getElem?_eq_getElem hi]
        rfl
      · simp only [List.getElem?_cons_zero, Nat.zero_mul, Nat.add_zero, if_pos hi]
        rw [List.getD_eq_getElem?_getD, List.getElem?_eq_getElem hit]
        rfl
    · rw [dif_neg (by omega)]
      have hno : ¬ i + 0 * step < data.length := by omega
      rw [if_neg hno, if_neg hno]
      exact ⟨rfl, rfl⟩
  | k + 1, i => by
    rw [downsampleLoop]
    by_cases hi : i < data.length
    · rw [dif_pos ⟨hi, hs⟩]
      have ih := downsampleLoop_getElem? data time step hs hlen k (i + step)
      have harith : i + step + k * step = i + (k + 1) * step := by ring
      rw [harith] at ih
      simpa using ih
    · rw [dif_neg (by omega)]
      have hno : ¬ i + (k + 1) * step < data.length := by
        have : 0 < (k + 1) * step := Nat.mul_pos (Nat.succ_pos k) hs
        omega
      rw [if_neg hno, if_neg hno]
      exact ⟨rfl, rfl⟩

/-- C9: when the data fits in `maxPoints` the downsampler returns both arrays
unchanged; otherwise, with `step = floor(length / maxPoints)`, position `k`
of the output holds exactly the input pair at index `k·step` (and nothing
beyond the last such index) — a strided subsequence, never an average or an
interpolated value. -/
theorem downsample_subsequence (data time : List ℚ) (m : ℕ) (hm : 0 < m)
    (hlen : time.length = data.length) :
    (data.length ≤ m → downsample data time m = (data, time)) ∧
    (m < data.length →
      ∀ k : ℕ,
        (downsample data time m).1[k]? =
          (if k * (data.length / m) < data.length
           then data[k * (data.length / m)]? else none) ∧
        (downsample data time m).2[k]? =
          (if k * (data.length / m) < data.length
           then time[k * (data.length / m)]? else none)) := by
  constructor
  · intro h
    unfold downsample
    rw [if_pos h]
  · intro h k
    have hstep : 0 < data.length / m := Nat.div_pos (le_of_lt h) hm
    unfold downsample
    rw [if_neg (by omega)]
    have hk := downsampleLoop_getElem? data time (data.length / m) hstep hlen k 0
    simpa using hk

/-- C9 (witness): downsampling five points to at most two keeps exactly the
original elements at indices 0, 2, 4; output position 1 holds the input pair
at index 2. -/
theorem downsample_subsequence_witness :
    (downsample [(1:ℚ), 2, 3, 4, 5] [(5:ℚ), 6, 7, 8, 9] 2).1[1]? = some 3 ∧
    (downsample [(1:ℚ), 2, 3, 4, 5] [(5:ℚ), 6, 7, 8, 9] 2).2[1]? = some 7 := by
  have h := (downsample_subsequence [(1:ℚ), 2, 3, 4, 5] [(5:ℚ), 6, 7, 8, 9] 2
      (by norm_num) rfl).2 (by simp) 1
  constructor
  · rw [h.1]
    norm_num
  · rw [h.2]
    norm_num
